import Mathlib

/-!
# Verification of the nsys-profiling-poc repository against its specification

This file gives a shallow embedding, in Lean 4, of the pure computational
content of the Python sources of the repository (benchmark kernels in
`src/python/` and the result-analysis scripts in `src/scripts/`), and proves
or refutes the frozen claims about them.

Machine integers of Python are arbitrary precision, so they are embedded as
`Nat`/`Int`; Python floats appearing in the analysed code paths are read as
exact rationals (`ℚ`); fallible Python code (code that can raise) is embedded
into `Except String`; file access and subprocess calls are environmental
inputs, embedded as explicit `Option`/`Except` parameters.
-/

namespace NsysPoc

/-! ## `src/python/1_basic_cpu_profiling.py` -/

/-- `fibonacci_recursive` from `1_basic_cpu_profiling.py`:
`if n <= 1: return n; return fibonacci_recursive(n-1) + fibonacci_recursive(n-2)`,
restricted to natural-number arguments. -/
def fibonacci_recursive : Nat → Nat
  | 0 => 0
  | 1 => 1
  | n + 2 => fibonacci_recursive (n + 1) + fibonacci_recursive n

/-- The loop of `fibonacci_iterative`: `for _ in range(2, n+1): a, b = b, a+b`,
given as the number of remaining iterations acting on the pair `(a, b)`. -/
def fibIterLoop : Nat → Nat × Nat → Nat × Nat
  | 0, p => p
  | k + 1, p => fibIterLoop k (p.2, p.1 + p.2)

/-- `fibonacci_iterative` from `1_basic_cpu_profiling.py`:
`if n <= 1: return n; a, b = 0, 1; for _ in range(2, n+1): a, b = b, a+b; return b`.
`range(2, n+1)` has `n - 1` elements when `n ≥ 2`. -/
def fibonacci_iterative (n : Nat) : Nat :=
  if n ≤ 1 then n else (fibIterLoop (n - 1) (0, 1)).2

/-- Python `range(start, stop, step)` for a positive `step`, as the list
`[start, start + step, ...)` of the elements below `stop`; its length is
`⌈(stop - start) / step⌉`. -/
def pyRange (start stop step : Nat) : List Nat :=
  (List.range ((stop - start + step - 1) / step)).map fun k => start + k * step

/-- `sieve = [True] * (limit + 1); sieve[0] = sieve[1] = False` from
`prime_sieve`. -/
def initialSieve (limit : Nat) : List Bool :=
  ((List.replicate (limit + 1) true).set 0 false).set 1 false

/-- The inner loop of `prime_sieve`:
`for j in range(i*i, limit + 1, i): sieve[j] = False`. -/
def markMultiples (limit : Nat) (s : List Bool) (i : Nat) : List Bool :=
  (pyRange (i * i) (limit + 1) i).foldl (fun t j => t.set j false) s

/-- The body of the outer loop of `prime_sieve`: `if sieve[i]:` guard around
the marking. -/
def sieveStep (limit : Nat) (s : List Bool) (i : Nat) : List Bool :=
  if s.getD i false then markMultiples limit s i else s

/-- `prime_sieve` from `1_basic_cpu_profiling.py`.  The outer loop runs
`for i in range(2, int(math.sqrt(limit)) + 1)`; `int(math.sqrt(limit))` is
read as the exact integer square root `Nat.sqrt limit`; the return value is
`[i for i in range(2, limit + 1) if sieve[i]]`. -/
def prime_sieve (limit : Nat) : List Nat :=
  let sieve := (pyRange 2 (Nat.sqrt limit + 1) 1).foldl (sieveStep limit) (initialSieve limit)
  (pyRange 2 (limit + 1) 1).filter fun i => sieve.getD i false

/-- Specification predicate for the sieve invariant: after the outer loop has
processed `i = 2 .. k`, index `j` is cleared exactly when `j < 2` or some
prime `p ≤ k` with `p * p ≤ j` divides `j`. -/
def Marked (k j : Nat) : Prop :=
  j < 2 ∨ ∃ p, Nat.Prime p ∧ p ≤ k ∧ p * p ≤ j ∧ p ∣ j

/-- The sieve-loop invariant: the sieve list keeps its length `limit + 1` and
each index `j ≤ limit` is cleared exactly when `Marked k j`. -/
def SieveInv (limit k : Nat) (s : List Bool) : Prop :=
  s.length = limit + 1 ∧ ∀ j ≤ limit, (s.getD j false = false ↔ Marked k j)

/-! ## `src/python/2_matrix_operations.py`

Matrices are embedded as lists of rows; the Python floats in the two pure
multiplication routines are read as exact rationals.  Both routines raise
`ValueError` when `len(a[0]) != len(b)`, embedded as `Except.error`.
Out-of-range Python indexing never occurs on the inputs covered by the
claims (non-empty rectangular matrices); the embedding reads `a[0]` as
`a.headD []` and element access as `getD _ 0`, which agree with the source
on those inputs. -/

/-- `naive_matrix_multiply` from `2_matrix_operations.py`.  The cell
`result[i][j]` is accumulated by `result[i][j] += a[i][k] * b[k][j]` over
`k in range(cols_a)` starting from `0.0`, i.e. a left fold. -/
def naive_matrix_multiply (a b : List (List ℚ)) : Except String (List (List ℚ)) :=
  let rows_a := a.length
  let cols_a := (a.headD []).length
  let rows_b := b.length
  let cols_b := (b.headD []).length
  if cols_a ≠ rows_b then .error "Incompatible matrix dimensions"
  else .ok ((List.range rows_a).map fun i =>
    (List.range cols_b).map fun j =>
      (List.range cols_a).foldl
        (fun acc k => acc + (a.getD i []).getD k 0 * (b.getD k []).getD j 0) 0)

/-- `optimized_matrix_multiply` from `2_matrix_operations.py`: transposes `b`
(`b_transposed = [[b[j][i] for j in range(rows_b)] for i in range(cols_b)]`)
and computes `result[i][j] = sum(a[i][k] * b_transposed[j][k] for k in
range(cols_a))`; Python's `sum` is a left fold starting from `0`. -/
def optimized_matrix_multiply (a b : List (List ℚ)) : Except String (List (List ℚ)) :=
  let rows_a := a.length
  let cols_a := (a.headD []).length
  let rows_b := b.length
  let cols_b := (b.headD []).length
  if cols_a ≠ rows_b then .error "Incompatible matrix dimensions"
  else
    let b_transposed := (List.range cols_b).map fun i =>
      (List.range rows_b).map fun j => (b.getD j []).getD i 0
    .ok ((List.range rows_a).map fun i =>
      (List.range cols_b).map fun j =>
        (List.range cols_a).foldl
          (fun acc k => acc + (a.getD i []).getD k 0 * (b_transposed.getD j []).getD k 0) 0)

/-- A list-of-rows matrix is rectangular when every row has the length of the
first row. -/
def Rectangular (m : List (List ℚ)) : Prop :=
  ∀ row ∈ m, row.length = (m.headD []).length

instance Rectangular.decidable (m : List (List ℚ)) : Decidable (Rectangular m) :=
  inferInstanceAs (Decidable (∀ row ∈ m, row.length = (m.headD []).length))

/-! ## Python string and number primitives used by the analysis scripts

File contents are embedded as `List Char`.  The profiler text the scripts
parse is ASCII, so Python's `\s` class is read as the six ASCII whitespace
characters. -/

/-- Python's `\s` character class / `str.strip()` whitespace (ASCII range). -/
def pySpace (c : Char) : Bool :=
  c = ' ' || c = '\t' || c = '\n' || c = '\r' || c = '\x0b' || c = '\x0c'

/-- The `[\d.]` character class. -/
def isDigitDot (c : Char) : Bool := c.isDigit || c = '.'

/-- Value of a string of decimal digits (Python `int` applied to a `\d+`
regex capture, which is always a nonempty digit string). -/
def natOfDigits (s : List Char) : Nat :=
  s.foldl (fun n c => 10 * n + (c.toNat - 48)) 0

/-- Python `float()` applied to a token drawn from the `[\d.]+` class (as
captured by the Duration regex): succeeds exactly when the token has at most
one dot and at least one digit, giving the exact rational value; otherwise
(`"."`, `"1.2.3"`, ...) Python raises `ValueError`, embedded as `none`. -/
def pyFloatOfDigitsDots (s : List Char) : Option ℚ :=
  if s.count '.' = 0 then
    if s = [] then none else some (natOfDigits s)
  else if s.count '.' = 1 then
    let intPart := s.takeWhile (fun c => c ≠ '.')
    let fracPart := (s.dropWhile (fun c => c ≠ '.')).tail
    if intPart = [] ∧ fracPart = [] then none
    else some ((natOfDigits intPart : ℚ) + (natOfDigits fracPart : ℚ) / 10 ^ fracPart.length)
  else none

/-- Python `sub in s` for strings. -/
def containsSub (sub : List Char) : List Char → Bool
  | [] => sub.isPrefixOf []
  | c :: rest => sub.isPrefixOf (c :: rest) || containsSub sub rest

/-- The prefix of `l` strictly before the first occurrence of `sub`
(all of `l` when `sub` does not occur). -/
def takeUntilSub (sub : List Char) : List Char → List Char
  | [] => []
  | c :: rest => if sub.isPrefixOf (c :: rest) then [] else c :: takeUntilSub sub rest

/-- The suffix of `l` just after the first occurrence of `sub` (empty when
`sub` does not occur).  `takeUntilSub sub (dropThroughSub sub l)` is Python's
`l.split(sub)[1]` when `sub` occurs in `l`. -/
def dropThroughSub (sub : List Char) : List Char → List Char
  | [] => []
  | c :: rest =>
    if sub.isPrefixOf (c :: rest) then (c :: rest).drop sub.length
    else dropThroughSub sub rest

/-- `str.strip(ch)`: remove every leading and trailing occurrence of `ch`. -/
def pyStripChar (ch : Char) (l : List Char) : List Char :=
  ((l.dropWhile (fun c => c = ch)).reverse.dropWhile (fun c => c = ch)).reverse

/-- `str.strip()`: remove leading and trailing whitespace. -/
def pyStrip (l : List Char) : List Char :=
  ((l.dropWhile pySpace).reverse.dropWhile pySpace).reverse

/-- Helper for `pyWords`: accumulates the current word (reversed). -/
def wordsGo (cur : List Char) : List Char → List (List Char)
  | [] => if cur = [] then [] else [cur.reverse]
  | c :: rest =>
    if pySpace c then
      if cur = [] then wordsGo [] rest else cur.reverse :: wordsGo [] rest
    else wordsGo (c :: cur) rest

/-- `str.split()` with no separator: the whitespace-separated words, with no
empty strings. -/
def pyWords (l : List Char) : List (List Char) := wordsGo [] l

/-- Python `float(str)` on a general token: strip, optional sign, digits with
at most one dot, optional `e`/`E` exponent.  The exotic accepted spellings
(`inf`, `nan`, underscore digit separators) do not occur in the analysed
profiler text and are mapped to `none` like any other `ValueError`. -/
def pyFloatMantissa (s : List Char) : Option ℚ :=
  if s.all isDigitDot then pyFloatOfDigitsDots s else none

/-- Optional-sign wrapper for `pyFloat`. -/
def pySigned (f : List Char → Option ℚ) : List Char → Option ℚ
  | '+' :: rest => f rest
  | '-' :: rest => (f rest).map (fun q => -q)
  | s => f s

/-- The exponent part of a Python float literal: an optionally signed
nonempty digit string. -/
def pyExpPart : List Char → Option Int
  | '+' :: rest =>
    if rest ≠ [] ∧ rest.all Char.isDigit then some (natOfDigits rest) else none
  | '-' :: rest =>
    if rest ≠ [] ∧ rest.all Char.isDigit then some (-(natOfDigits rest : Int)) else none
  | s => if s ≠ [] ∧ s.all Char.isDigit then some ((natOfDigits s : Int)) else none

/-- Python `float(str)`; see `pyFloatMantissa` for the modelled forms. -/
def pyFloat (s0 : List Char) : Option ℚ :=
  let s := (pyStrip s0).map Char.toLower
  match s.splitOn 'e' with
  | [m] => pySigned pyFloatMantissa m
  | [m, e] =>
    match pySigned pyFloatMantissa m, pyExpPart e with
    | some mv, some ev => some (mv * (10 : ℚ) ^ ev)
    | _, _ => none
  | _ => none

/-- Python `int(str)`: strip, optional sign, nonempty digit string
(underscore separators do not occur in the analysed text and map to `none`
like any other `ValueError`). -/
def pyInt (s0 : List Char) : Option Int :=
  match pyStrip s0 with
  | '+' :: rest =>
    if rest ≠ [] ∧ rest.all Char.isDigit then some (natOfDigits rest) else none
  | '-' :: rest =>
    if rest ≠ [] ∧ rest.all Char.isDigit then some (-(natOfDigits rest : Int)) else none
  | s => if s ≠ [] ∧ s.all Char.isDigit then some ((natOfDigits s : Int)) else none

/-! ## Regex searches of `compare_results.py`

The three patterns are a literal, then `\s*`, then a nonempty greedy
character class (`[\d.]+` or `\d+`), then (for Duration) `\s*` and a closing
literal.  The classes `\s`, `[\d.]`/`\d` and the first letter of the closing
literal are pairwise disjoint, so backtracking can never produce a match the
greedy scan misses: `re.search` succeeds at a position iff the maximal-run
scan does, and the leftmost such position wins. -/

/-- One attempt of `re.search(r'Duration:\s*([\d.]+)\s*seconds', content)` at
the current position; returns the captured group. -/
def matchDurationAt (l : List Char) : Option (List Char) :=
  if ("Duration:".toList).isPrefixOf l then
    let r1 := (l.drop 9).dropWhile pySpace
    let num := r1.takeWhile isDigitDot
    if num = [] then none
    else if ("seconds".toList).isPrefixOf ((r1.dropWhile isDigitDot).dropWhile pySpace) then
      some num
    else none
  else none

/-- Leftmost-match scan for the Duration pattern. -/
def searchDuration : List Char → Option (List Char)
  | [] => none
  | c :: rest =>
    match matchDurationAt (c :: rest) with
    | some g => some g
    | none => searchDuration rest

/-- One attempt of `re.search(r'<lit>\s*(\d+)', content)` at the current
position (used with `Total samples:` and `Context switches:`). -/
def matchCountAt (lit : List Char) (l : List Char) : Option (List Char) :=
  if lit.isPrefixOf l then
    let num := ((l.drop lit.length).dropWhile pySpace).takeWhile Char.isDigit
    if num = [] then none else some num
  else none

/-- Leftmost-match scan for a `<lit>\s*(\d+)` pattern. -/
def searchCount (lit : List Char) : List Char → Option (List Char)
  | [] => none
  | c :: rest =>
    match matchCountAt lit (c :: rest) with
    | some g => some g
    | none => searchCount lit rest

/-! ## Python dictionaries

A `str`-keyed Python dict is embedded as an insertion-ordered association
list; assignment replaces in place when the key exists and appends
otherwise. -/

/-- Python `d[k] = v`. -/
def dictSet {V : Type} (d : List (String × V)) (k : String) (v : V) : List (String × V) :=
  if d.any (fun p => p.1 = k) then d.map (fun p => if p.1 = k then (k, v) else p)
  else d ++ [(k, v)]

/-- The keys of the dict, in order. -/
def dictKeys {V : Type} (d : List (String × V)) : List String := d.map (fun p => p.1)

/-- Python `d[k]` as an option. -/
def dictGet? {V : Type} (d : List (String × V)) (k : String) : Option V :=
  (d.find? (fun p => p.1 = k)).map (fun p => p.2)

/-! ## `src/scripts/compare_results.py` -/

/-- The values stored in the `stats` dict of `parse_stats_file`. -/
inductive StatVal where
  | durationVal (q : Option ℚ)
  | countVal (n : Nat)
  | funcsVal (l : List (List Char × ℚ))
  deriving DecidableEq

/-- The dict literal `parse_stats_file` starts from. -/
def initStats : List (String × StatVal) :=
  [("duration", .durationVal none), ("cpu_samples", .countVal 0),
    ("context_switches", .countVal 0), ("top_functions", .funcsVal []),
    ("os_runtime_events", .countVal 0), ("nvtx_events", .countVal 0)]

/-- One line of the Top Functions block of `parse_stats_file`:
`if line.strip() and '%' in line: parts = line.split(); if len(parts) >= 2:`
then `float(parts[0].strip('%'))` guarded by `try/except ValueError`, and
append `(' '.join(parts[1:]), percentage)`. -/
def topFuncLine (acc : List (List Char × ℚ)) (line : List Char) : List (List Char × ℚ) :=
  if pyStrip line ≠ [] ∧ line.contains '%' then
    let parts := pyWords line
    if 2 ≤ parts.length then
      match pyFloat (pyStripChar '%' (parts.headD [])) with
      | some percentage => acc ++ [(List.intercalate [' '] parts.tail, percentage)]
      | none => acc
    else acc
  else acc

/-- The Top Functions section of `parse_stats_file`:
`content.split('Top Functions')[1].split('\n\n')[0]`, then the lines from
index 2 on feed `topFuncLine`. -/
def topFunctions (content : List Char) : List (List Char × ℚ) :=
  let func_section := takeUntilSub ("\n\n".toList)
    (takeUntilSub ("Top Functions".toList) (dropThroughSub ("Top Functions".toList) content))
  ((func_section.splitOn '\n').drop 2).foldl topFuncLine []

/-- One `if <match>: stats[key] = int(<group>)` step of `parse_stats_file`:
update the dict under `key` when the regex search succeeded. -/
def setIfFound (key : String) (r : Option (List Char))
    (d : List (String × StatVal)) : List (String × StatVal) :=
  match r with
  | some g => dictSet d key (.countVal (natOfDigits g))
  | none => d

/-- The `if 'Top Functions' in content:` step of `parse_stats_file`; with the
initial value `[]` the per-line appends amount to storing the accumulated
list. -/
def setTopIf (cond : Bool) (v : List (List Char × ℚ))
    (d : List (String × StatVal)) : List (String × StatVal) :=
  if cond then dictSet d "top_functions" (.funcsVal v) else d

/-- The part of `parse_stats_file` after the Duration field: CPU samples,
context switches, and the Top Functions section (run only when
`'Top Functions' in content`), applied in source order. -/
def statsRest (d : List (String × StatVal)) (content : List Char) : List (String × StatVal) :=
  setTopIf (containsSub ("Top Functions".toList) content) (topFunctions content)
    (setIfFound "context_switches" (searchCount ("Context switches:".toList) content)
      (setIfFound "cpu_samples" (searchCount ("Total samples:".toList) content) d))

/-- `parse_stats_file` from `compare_results.py`.  The filesystem is an
environmental input: `none` embeds a missing file (the `not filepath.exists()`
early return), `some content` the file's text.  The unguarded
`float(duration_match.group(1))` can raise `ValueError`, embedded as
`Except.error`; everything else in the function is total. -/
def parse_stats_file (file : Option (List Char)) : Except String (List (String × StatVal)) :=
  match file with
  | none => .ok initStats
  | some content =>
    match searchDuration content with
    | none => .ok (statsRest initStats content)
    | some g =>
      match pyFloatOfDigitsDots g with
      | none => .error "ValueError: could not convert string to float"
      | some q => .ok (statsRest (dictSet initStats "duration" (.durationVal (some q))) content)

/-- The hypothesis under which `parse_stats_file` cannot raise: whenever the
Duration regex matches, the captured `[\d.]+` group is a valid Python float
literal (at most one dot and at least one digit). -/
def durationGroupSafe : Option (List Char) → Bool
  | none => true
  | some content =>
    match searchDuration content with
    | none => true
    | some g => (pyFloatOfDigitsDots g).isSome

/-- The value of the `duration` key of a stats dict. -/
def getDuration (d : List (String × StatVal)) : Option ℚ :=
  match dictGet? d "duration" with
  | some (.durationVal q) => q
  | _ => none

/-- Python truthiness of the `duration` field (`None` and `0.0` are falsy). -/
def pyTruthyDuration : Option ℚ → Bool
  | none => false
  | some x => decide (x ≠ 0)

/-- The `example_pairs` list of `compare_implementations`. -/
def example_pairs : List (String × String × String) :=
  [("py_1_basic_cpu", "cpp_1_basic_cpu", "Basic CPU Profiling"),
    ("py_2_matrix_ops", "cpp_2_matrix_ops", "Matrix Operations"),
    ("py_3_multiprocessing", "cpp_3_multithreading", "Parallel Processing"),
    ("py_4_nvtx", "cpp_4_nvtx", "NVTX Annotations"),
    ("py_5_io_bound", "cpp_5_memory", "Memory/IO Intensive")]

/-- One entry of the `comparisons` dict of `compare_implementations`. -/
structure Comparison where
  python : List (String × StatVal)
  cpp : List (String × StatVal)
  speedup : ℚ
  deriving DecidableEq

/-- The loop of `compare_implementations` over a list of example pairs: parse
both stats files, and add the entry exactly when both parsed durations are
truthy, with `speedup = py_duration / cpp_duration`.  An exception from
`parse_stats_file` propagates. -/
def comparePairs (fs : String → Option (List Char)) :
    List (String × String × String) → Except String (List (String × Comparison))
  | [] => .ok []
  | (py_name, cpp_name, display_name) :: rest =>
    match parse_stats_file (fs (py_name ++ "_stats.txt")) with
    | .error e => .error e
    | .ok py_stats =>
      match parse_stats_file (fs (cpp_name ++ "_stats.txt")) with
      | .error e => .error e
      | .ok cpp_stats =>
        match comparePairs fs rest with
        | .error e => .error e
        | .ok comps =>
          if pyTruthyDuration (getDuration py_stats) &&
              pyTruthyDuration (getDuration cpp_stats) then
            .ok ((display_name,
              ⟨py_stats, cpp_stats,
                (getDuration py_stats).getD 0 / (getDuration cpp_stats).getD 0⟩) :: comps)
          else .ok comps

/-- `compare_implementations` from `compare_results.py`, over the abstract
filesystem `fs` (file name to optional content). -/
def compare_implementations (fs : String → Option (List Char)) :
    Except String (List (String × Comparison)) :=
  comparePairs fs example_pairs

/-! ## `src/scripts/generate_visual_report.py` -/

/-- The stats dict of `NSysReportGenerator.extract_stats`.  `samples` is set
by a general `int(...)` and so ranges over `Int`; `cpu_utilization` and
`context_switches` are initialised and never reassigned. -/
structure ExtractStats where
  name : String
  duration : Option ℚ
  cpu_utilization : Option ℚ
  top_functions : List (List Char × ℚ)
  context_switches : Nat
  samples : Int
  deriving DecidableEq

/-- One line of a `Top Functions` / `CPU Functions` table in `extract_stats`:
`if len(parts) >= 2 and '%' in parts[0]:` with the `float` guarded by a bare
`except`. -/
def extractTopLine (acc : List (List Char × ℚ)) (line : List Char) : List (List Char × ℚ) :=
  let parts := pyWords line
  if 2 ≤ parts.length ∧ (parts.headD []).contains '%' then
    match pyFloat (pyStripChar '%' (parts.headD [])) with
    | some percentage => acc ++ [(List.intercalate [' '] parts.tail, percentage)]
    | none => acc
  else acc

/-- The `while j < len(lines) and lines[j].strip():` table scan of
`extract_stats`, starting two lines below the header line. -/
def extractTopBlock (ls : List (List Char)) : List (List Char × ℚ) :=
  ls.foldl extractTopLine []

/-- The line loop of `extract_stats` over the stdout of `nsys stats`:
for each line, the `Duration:` split/`float` (bare `except: pass`), the
`Top Functions`/`CPU Functions` table append, and the `Total samples:`
split/`int` (bare `except: pass`). -/
def extractLoop (stem : String) (stdout : List Char) : ExtractStats :=
  let lines := stdout.splitOn '\n'
  (List.range lines.length).foldl (fun st i =>
    let line := lines.getD i []
    let st := if containsSub ("Duration:".toList) line then
        match (pyWords (pyStrip (takeUntilSub ("Duration:".toList)
            (dropThroughSub ("Duration:".toList) line)))).head? with
        | none => st
        | some w =>
          match pyFloat w with
          | none => st
          | some q => { st with duration := some q }
      else st
    let st := if containsSub ("Top Functions".toList) line ||
        containsSub ("CPU Functions".toList) line then
        { st with top_functions := st.top_functions ++
            extractTopBlock ((lines.drop (i + 2)).takeWhile (fun l => pyStrip l ≠ [])) }
      else st
    if containsSub ("Total samples:".toList) line then
      match pyInt (pyStrip (takeUntilSub [':'] (dropThroughSub [':'] line))) with
      | none => st
      | some n => { st with samples := n }
    else st)
    ⟨stem, none, none, [], 0, 0⟩

/-- `NSysReportGenerator.extract_stats`.  The `nsys stats` subprocess is an
environmental input: `Except.error ()` embeds a `subprocess.CalledProcessError`
(the `check=True` failure the function catches), `Except.ok stdout` a
successful run.  `stem` is `profile_path.stem`. -/
def extract_stats (stem : String) (run : Except Unit (List Char)) : ExtractStats :=
  match run with
  | .error _ => ⟨stem, none, none, [], 0, 0⟩
  | .ok stdout => extractLoop stem stdout

/-! ## `src/python/4_nvtx_annotations.py` -/

/-- The two possible return values of `DummyNVTX.annotate(message, ...)`:
the `message` argument itself when `callable(message)` (bare-decorator use),
otherwise the local function `decorator`.  Both are plain Python function
objects. -/
inductive DummyAnnotateResult where
  | returnedMessage
  | decoratorClosure
  deriving DecidableEq

/-- `DummyNVTX.annotate(message, color, domain)`, keyed on `callable(message)`. -/
def DummyNVTX.annotate (messageIsCallable : Bool) : DummyAnnotateResult :=
  if messageIsCallable then .returnedMessage else .decoratorClosure

/-- The local `decorator` of `DummyNVTX.annotate` returns `func` unchanged,
so decorating with it is the identity. -/
def DummyNVTX.decorator {α : Type} (func : α) : α := func

/-- Whether a Python `with` statement accepts the value: both possible
results of `DummyNVTX.annotate` are plain function objects, which implement
neither `__enter__` nor `__exit__`, so `with` on either raises `TypeError`.
(The real `nvtx.annotate` returns a context-manager object.) -/
def supportsWithStatement : DummyAnnotateResult → Bool
  | .returnedMessage => false
  | .decoratorClosure => false

/-! ## `src/python/5_io_bound_example.py` -/

/-- `IOProfiler.measure(name, func, *args, **kwargs)`.  The call
`func(*args, **kwargs)` is an environmental input (`Except`); the two
`time.time()` readings enter only through their difference `elapsed`.  The
result pairs the outcome with the final `results` dict: on success the dict
gains `results[name] = elapsed`, on an exception it is untouched and the
exception propagates. -/
def IOProfiler.measure {α : Type} (results : List (String × ℚ)) (name : String)
    (func : Except String α) (elapsed : ℚ) : Except String α × List (String × ℚ) :=
  match func with
  | .error e => (.error e, results)
  | .ok v => (.ok v, dictSet results name elapsed)

end NsysPoc

namespace NsysPoc

theorem fibIterLoop_fib (k m : Nat) :
    fibIterLoop k (Nat.fib m, Nat.fib (m + 1)) = (Nat.fib (m + k), Nat.fib (m + k + 1)) := by
  induction k generalizing m with
  | zero => simp [fibIterLoop]
  | succ k ih =>
    simp only [fibIterLoop]
    rw [show Nat.fib m + Nat.fib (m + 1) = Nat.fib (m + 1 + 1) by rw [Nat.fib_add_two]]
    rw [ih (m + 1), show m + 1 + k = m + (k + 1) by omega]

theorem fibonacci_iterative_eq_fib (n : Nat) : fibonacci_iterative n = Nat.fib n := by
  unfold fibonacci_iterative
  by_cases h : n ≤ 1
  · interval_cases n <;> simp
  · simp only [if_neg h]
    have h2 : 2 ≤ n := by omega
    have := fibIterLoop_fib (n - 1) 0
    simp only [Nat.zero_add] at this
    rw [show (0, 1) = (Nat.fib 0, Nat.fib 1) from rfl, this]
    simp only []
    congr 1
    omega

theorem fibonacci_recursive_eq_fib (n : Nat) : fibonacci_recursive n = Nat.fib n := by
  induction n using Nat.strong_induction_on with
  | _ n ih =>
    match n with
    | 0 => rfl
    | 1 => rfl
    | n + 2 =>
      rw [fibonacci_recursive, Nat.fib_add_two, ih (n + 1) (by omega), ih n (by omega),
        Nat.add_comm]

/-- C3: for every natural number `n`, `fibonacci_iterative n` is the `n`-th
Fibonacci number (with `F 0 = 0`, `F 1 = 1`, `F (n+2) = F (n+1) + F n`),
and in particular `fibonacci_iterative 10 = 55`. -/
theorem C3_fibonacci_iterative_correct :
    (∀ n : Nat, fibonacci_iterative n = Nat.fib n) ∧ fibonacci_iterative 10 = 55 :=
  ⟨fibonacci_iterative_eq_fib, by decide⟩

/-- C9: for every natural number `n`, the deliberately inefficient
`fibonacci_recursive` agrees with `fibonacci_iterative`. -/
theorem C9_fibonacci_recursive_eq_iterative :
    ∀ n : Nat, fibonacci_recursive n = fibonacci_iterative n := by
  intro n
  rw [fibonacci_recursive_eq_fib, fibonacci_iterative_eq_fib]

theorem getD_map_range {α : Type} (f : Nat → α) (d : α) {n i : Nat} (h : i < n) :
    ((List.range n).map f).getD i d = f i := by
  simp [List.getD_eq_getElem?_getD, List.getElem?_map, List.getElem?_range h]

theorem optimized_eq_naive (a b : List (List ℚ)) :
    optimized_matrix_multiply a b = naive_matrix_multiply a b := by
  unfold optimized_matrix_multiply naive_matrix_multiply
  by_cases hc : (a.headD []).length = b.length
  · simp only [if_neg (not_not_intro hc)]
    congr 1
    apply List.map_congr_left
    intro i _
    apply List.map_congr_left
    intro j hj
    apply List.foldl_ext
    intro acc k hk
    rw [List.mem_range] at hj hk
    rw [getD_map_range _ _ hj, getD_map_range _ _ (show k < b.length from hc ▸ hk)]
  · rw [if_pos hc, if_pos hc]

/-- C8: on non-empty rectangular matrices with compatible dimensions (read
with exact rational arithmetic), `optimized_matrix_multiply` returns the same
matrix as `naive_matrix_multiply`. -/
theorem C8_optimized_matrix_multiply_eq_naive (a b : List (List ℚ))
    (ha : a ≠ []) (hb : b ≠ []) (hra : Rectangular a) (hrb : Rectangular b)
    (hdim : (a.headD []).length = b.length) :
    optimized_matrix_multiply a b = naive_matrix_multiply a b :=
  optimized_eq_naive a b

/-- Witness for C8 at a concrete pair of 2×2 matrices. -/
theorem C8_optimized_matrix_multiply_eq_naive_witness :
    ([[(1 : ℚ), 2], [3, 4]] ≠ []) ∧ ([[(5 : ℚ), 6], [7, 8]] ≠ []) ∧
      Rectangular [[(1 : ℚ), 2], [3, 4]] ∧ Rectangular [[(5 : ℚ), 6], [7, 8]] ∧
      optimized_matrix_multiply [[(1 : ℚ), 2], [3, 4]] [[(5 : ℚ), 6], [7, 8]] =
        naive_matrix_multiply [[(1 : ℚ), 2], [3, 4]] [[(5 : ℚ), 6], [7, 8]] :=
  ⟨by decide, by decide, by decide, by decide,
    C8_optimized_matrix_multiply_eq_naive _ _ (by decide) (by decide) (by decide) (by decide)
      (by decide)⟩

/-- C10: on non-empty rectangular matrices, `naive_matrix_multiply` raises
`ValueError` (embedded: returns `Except.error`) exactly when `len(a[0]) ≠
len(b)`; on compatible dimensions it returns a matrix with `len(a)` rows,
each of length `len(b[0])`. -/
theorem C10_naive_matrix_multiply_shape (a b : List (List ℚ))
    (ha : a ≠ []) (hb : b ≠ []) (hra : Rectangular a) (hrb : Rectangular b) :
    ((∃ e, naive_matrix_multiply a b = .error e) ↔ (a.headD []).length ≠ b.length) ∧
      ((a.headD []).length = b.length →
        ∃ m, naive_matrix_multiply a b = .ok m ∧ m.length = a.length ∧
          ∀ row ∈ m, row.length = (b.headD []).length) := by
  unfold naive_matrix_multiply
  by_cases hc : (a.headD []).length = b.length
  · rw [if_neg (not_not_intro hc)]
    refine ⟨⟨fun ⟨e, he⟩ => absurd he (by simp), fun h => absurd hc h⟩, fun _ => ⟨_, rfl, ?_, ?_⟩⟩
    · simp
    · intro row hrow
      rw [List.mem_map] at hrow
      obtain ⟨i, _, hi⟩ := hrow
      rw [← hi]
      simp
  · rw [if_pos hc]
    exact ⟨⟨fun _ => hc, fun _ => ⟨_, rfl⟩⟩, fun h => absurd h hc⟩

/-- Witness for C10 at a concrete pair of matrices. -/
theorem C10_naive_matrix_multiply_shape_witness :
    ([[(1 : ℚ), 2], [3, 4]] ≠ []) ∧ ([[(5 : ℚ)], [7]] ≠ []) ∧
      Rectangular [[(1 : ℚ), 2], [3, 4]] ∧ Rectangular [[(5 : ℚ)], [7]] ∧
      (((∃ e, naive_matrix_multiply [[(1 : ℚ), 2], [3, 4]] [[(5 : ℚ)], [7]] = .error e) ↔
          (([[(1 : ℚ), 2], [3, 4]].headD []).length ≠ [[(5 : ℚ)], [7]].length)) ∧
        (([[(1 : ℚ), 2], [3, 4]].headD []).length = [[(5 : ℚ)], [7]].length →
          ∃ m, naive_matrix_multiply [[(1 : ℚ), 2], [3, 4]] [[(5 : ℚ)], [7]] = .ok m ∧
            m.length = [[(1 : ℚ), 2], [3, 4]].length ∧
            ∀ row ∈ m, row.length = ([[(5 : ℚ)], [7]].headD []).length)) :=
  ⟨by decide, by decide, by decide, by decide,
    C10_naive_matrix_multiply_shape _ _ (by decide) (by decide) (by decide) (by decide)⟩

theorem lt_ceilDiv_iff {d step k : Nat} (hstep : 0 < step) :
    k < (d + step - 1) / step ↔ k * step < d := by
  rw [Nat.lt_iff_add_one_le, Nat.le_div_iff_mul_le hstep, add_one_mul]
  omega

theorem pyRange_mem {start stop step j : Nat} (hstep : 0 < step) :
    j ∈ pyRange start stop step ↔ start ≤ j ∧ j < stop ∧ step ∣ (j - start) := by
  unfold pyRange
  rw [List.mem_map]
  constructor
  · rintro ⟨k, hk, rfl⟩
    rw [List.mem_range, lt_ceilDiv_iff hstep] at hk
    refine ⟨Nat.le_add_right _ _, by omega, ⟨k, ?_⟩⟩
    rw [Nat.add_sub_cancel_left, Nat.mul_comm]
  · rintro ⟨h1, h2, k, hk⟩
    refine ⟨k, ?_, ?_⟩
    · rw [List.mem_range, lt_ceilDiv_iff hstep, Nat.mul_comm]
      omega
    · rw [Nat.mul_comm]
      omega

theorem pyRange_one_succ {start stop : Nat} (h : start ≤ stop) :
    pyRange start (stop + 1) 1 = pyRange start stop 1 ++ [stop] := by
  unfold pyRange
  rw [Nat.div_one, Nat.div_one,
    show stop + 1 - start + 1 - 1 = (stop - start) + 1 by omega,
    show stop - start + 1 - 1 = stop - start by omega,
    List.range_succ, List.map_append]
  congr 1
  simp only [List.map_cons, List.map_nil]
  rw [show start + (stop - start) * 1 = stop by omega]

theorem foldl_set_length (L : List Nat) (s : List Bool) :
    (L.foldl (fun t j => t.set j false) s).length = s.length := by
  induction L generalizing s with
  | nil => rfl
  | cons a L ih => rw [List.foldl_cons, ih, List.length_set]

theorem foldl_set_getD (L : List Nat) (s : List Bool) (j : Nat) :
    (L.foldl (fun t a => t.set a false) s).getD j false =
      if j ∈ L ∧ j < s.length then false else s.getD j false := by
  induction L generalizing s with
  | nil => simp
  | cons a L ih =>
    rw [List.foldl_cons, ih, List.length_set]
    by_cases hj : j < s.length
    · by_cases hja : j = a
      · subst hja
        have h1 : (s.set j false).getD j false = false := by
          simp [List.getD_eq_getElem?_getD, List.getElem?_set_self, hj]
        by_cases hL : j ∈ L
        · rw [if_pos ⟨hL, hj⟩, if_pos ⟨List.mem_cons_self j L, hj⟩]
        · rw [if_neg (fun hc => hL hc.1), h1, if_pos ⟨List.mem_cons_self j L, hj⟩]
      · have h2 : (s.set a false).getD j false = s.getD j false := by
          rw [List.getD_eq_getElem?_getD, List.getD_eq_getElem?_getD,
            List.getElem?_set_ne (fun h => hja h.symm)]
        by_cases hL : j ∈ L
        · rw [if_pos ⟨hL, hj⟩, if_pos ⟨List.mem_cons_of_mem a hL, hj⟩]
        · rw [if_neg (fun hc => hL hc.1), h2,
            if_neg (fun hc => (List.mem_cons.mp hc.1).elim hja hL)]
    · have h3 : (s.set a false).getD j false = false :=
        List.getD_eq_default _ _ (by rw [List.length_set]; omega)
      have h4 : s.getD j false = false := List.getD_eq_default _ _ (by omega)
      rw [if_neg (fun hc => hj hc.2), h3, if_neg (fun hc => hj hc.2), h4]

theorem markMultiples_getD {limit : Nat} {s : List Bool} {i j : Nat} (hi : 0 < i)
    (hlen : s.length = limit + 1) :
    (markMultiples limit s i).getD j false =
      if i * i ≤ j ∧ j ≤ limit ∧ i ∣ j then false else s.getD j false := by
  unfold markMultiples
  rw [foldl_set_getD]
  by_cases h : i * i ≤ j ∧ j ≤ limit ∧ i ∣ j
  · rw [if_pos h, if_pos]
    refine ⟨(pyRange_mem hi).mpr ⟨h.1, by omega, ?_⟩, by omega⟩
    exact Nat.dvd_sub' h.2.2 (dvd_mul_left i i)
  · rw [if_neg h, if_neg]
    rintro ⟨hm, hjl⟩
    rw [pyRange_mem hi] at hm
    obtain ⟨hm1, hm2, hm3⟩ := hm
    have hdvd : i ∣ j := by
      have := dvd_add hm3 (dvd_mul_left i i)
      rwa [Nat.sub_add_cancel hm1] at this
    exact h ⟨hm1, by omega, hdvd⟩

theorem Marked.mono {k k' j : Nat} (hkk : k ≤ k') : Marked k j → Marked k' j := by
  rintro (h | ⟨p, hpp, hpk, hsq, hd⟩)
  · exact Or.inl h
  · exact Or.inr ⟨p, hpp, by omega, hsq, hd⟩

theorem marked_succ_of_not_prime {k j : Nat} (hp : ¬ Nat.Prime (k + 1)) :
    Marked (k + 1) j ↔ Marked k j := by
  constructor
  · rintro (h | ⟨p, hpp, hpk, hsq, hd⟩)
    · exact Or.inl h
    · have : p ≤ k := by
        rcases Nat.lt_or_ge p (k + 1) with h' | h'
        · omega
        · exact absurd ((by omega : p = k + 1) ▸ hpp) hp
      exact Or.inr ⟨p, hpp, this, hsq, hd⟩
  · exact Marked.mono (by omega)

theorem not_marked_of_prime {k j : Nat} (hp : Nat.Prime j) (hk : k < j) : ¬ Marked k j := by
  rintro (h | ⟨p, hpp, hpk, hsq, hd⟩)
  · exact absurd h (by have := hp.two_le; omega)
  · rcases hp.eq_one_or_self_of_dvd p hd with h' | h'
    · exact hpp.ne_one h'
    · omega

theorem marked_of_not_prime {k j : Nat} (h2 : 2 ≤ j) (hnp : ¬ Nat.Prime j)
    (hk : Nat.minFac j ≤ k) : Marked k j := by
  refine Or.inr ⟨j.minFac, Nat.minFac_prime (by omega), hk, ?_, Nat.minFac_dvd j⟩
  have := Nat.minFac_sq_le_self (by omega : 0 < j) hnp
  rwa [Nat.pow_two] at this

theorem minFac_le_of_composite {j : Nat} (h2 : 2 ≤ j) (hnp : ¬ Nat.Prime j) :
    Nat.minFac j * Nat.minFac j ≤ j := by
  have := Nat.minFac_sq_le_self (by omega : 0 < j) hnp
  rwa [Nat.pow_two] at this

theorem minFac_lt_of_composite {j : Nat} (h2 : 2 ≤ j) (hnp : ¬ Nat.Prime j) :
    Nat.minFac j < j := by
  have hle : Nat.minFac j ≤ j := Nat.le_of_dvd (by omega) (Nat.minFac_dvd j)
  have hne : Nat.minFac j ≠ j := fun h => hnp (h ▸ Nat.minFac_prime (by omega : j ≠ 1))
  omega

theorem sieveStep_inv {limit k : Nat} {s : List Bool} (inv : SieveInv limit k s)
    (hk : 1 ≤ k) (hklim : k + 1 ≤ limit) :
    SieveInv limit (k + 1) (sieveStep limit s (k + 1)) := by
  obtain ⟨hlen, hinv⟩ := inv
  by_cases hp : Nat.Prime (k + 1)
  · have htrue : s.getD (k + 1) false = true := by
      cases hb : s.getD (k + 1) false
      · exact absurd ((hinv (k + 1) hklim).mp hb) (not_marked_of_prime hp (by omega))
      · rfl
    unfold sieveStep
    rw [htrue, if_pos rfl]
    refine ⟨by unfold markMultiples; rw [foldl_set_length]; exact hlen, fun j hj => ?_⟩
    rw [markMultiples_getD (by omega) hlen]
    by_cases hcase : (k + 1) * (k + 1) ≤ j ∧ j ≤ limit ∧ (k + 1) ∣ j
    · rw [if_pos hcase]
      exact ⟨fun _ => Or.inr ⟨k + 1, hp, le_refl _, hcase.1, hcase.2.2⟩, fun _ => rfl⟩
    · rw [if_neg hcase, hinv j hj]
      constructor
      · exact Marked.mono (by omega)
      · rintro (h | ⟨p, hpp, hpk, hsq, hd⟩)
        · exact Or.inl h
        · by_cases hpk' : p ≤ k
          · exact Or.inr ⟨p, hpp, hpk', hsq, hd⟩
          · have hpe : p = k + 1 := by omega
            subst hpe
            exact absurd ⟨hsq, hj, hd⟩ hcase
  · have hm : Marked k (k + 1) :=
      marked_of_not_prime (by omega) hp
        (by have := minFac_lt_of_composite (by omega : 2 ≤ k + 1) hp; omega)
    have hfalse : s.getD (k + 1) false = false := (hinv (k + 1) hklim).mpr hm
    unfold sieveStep
    rw [hfalse]
    simp only [Bool.false_eq_true, if_false]
    exact ⟨hlen, fun j hj => by rw [hinv j hj, marked_succ_of_not_prime hp]⟩

theorem initialSieve_inv (limit : Nat) (hlim : 2 ≤ limit) :
    SieveInv limit 1 (initialSieve limit) := by
  constructor
  · unfold initialSieve
    rw [List.length_set, List.length_set, List.length_replicate]
  · intro j hj
    have hm : Marked 1 j ↔ j < 2 := by
      constructor
      · rintro (h | ⟨p, hpp, hpk, _, _⟩)
        · exact h
        · exact absurd hpk (by have := hpp.two_le; omega)
      · exact Or.inl
    rw [hm]
    unfold initialSieve
    match j with
    | 0 =>
      simp [List.getD_eq_getElem?_getD,
        List.getElem?_set_ne (show (1 : Nat) ≠ 0 by omega),
        List.getElem?_set_self (show 0 < (List.replicate (limit + 1) true).length by
          rw [List.length_replicate]; omega)]
    | 1 =>
      simp [List.getD_eq_getElem?_getD,
        List.getElem?_set_self (show 1 < ((List.replicate (limit + 1) true).set 0 false).length by
          rw [List.length_set, List.length_replicate]; omega)]
    | (j + 2) =>
      simp [List.getD_eq_getElem?_getD,
        List.getElem?_set_ne (show (1 : Nat) ≠ j + 2 by omega),
        List.getElem?_set_ne (show (0 : Nat) ≠ j + 2 by omega),
        List.getElem?_replicate, show j + 2 < limit + 1 by omega]

theorem sieveLoop_inv (limit : Nat) (hlim : 2 ≤ limit) :
    ∀ t, 1 ≤ t → t ≤ Nat.sqrt limit →
      SieveInv limit t ((pyRange 2 (t + 1) 1).foldl (sieveStep limit) (initialSieve limit)) := by
  intro t
  induction t with
  | zero => omega
  | succ t ih =>
    intro _ hsq
    by_cases ht : 1 ≤ t
    · have inv := ih ht (by omega)
      rw [pyRange_one_succ (by omega : 2 ≤ t + 1), List.foldl_append, List.foldl_cons,
        List.foldl_nil]
      exact sieveStep_inv inv ht (by have := Nat.sqrt_le_self limit; omega)
    · have ht0 : t = 0 := by omega
      subst ht0
      rw [show pyRange 2 2 1 = [] from rfl, List.foldl_nil]
      exact initialSieve_inv limit hlim

/-- C4: for every `limit ≥ 2`, `prime_sieve limit` is a strictly ascending
list containing exactly the primes `≤ limit`; in particular
`prime_sieve 10 = [2, 3, 5, 7]`. -/
theorem C4_prime_sieve_correct (limit : Nat) (h : 2 ≤ limit) :
    List.Sorted (· < ·) (prime_sieve limit) ∧
      (∀ p, p ∈ prime_sieve limit ↔ Nat.Prime p ∧ p ≤ limit) ∧
      prime_sieve 10 = [2, 3, 5, 7] := by
  have hsq1 : 1 ≤ Nat.sqrt limit := Nat.le_sqrt.mpr (by omega)
  obtain ⟨hlen, hinv⟩ := sieveLoop_inv limit h (Nat.sqrt limit) hsq1 (le_refl _)
  have hsq10 : Nat.sqrt 10 = 3 := by
    have h1 : 3 ≤ Nat.sqrt 10 := Nat.le_sqrt.mpr (by omega)
    have h2 : Nat.sqrt 10 < 4 := Nat.sqrt_lt.mpr (by omega)
    omega
  simp only [prime_sieve]
  refine ⟨?_, ?_, by rw [hsq10]; decide⟩
  · apply List.Pairwise.sublist (List.filter_sublist _)
    unfold pyRange
    refine List.Pairwise.map _ ?_ (List.pairwise_lt_range _)
    intro a b hab
    omega
  · intro p
    rw [List.mem_filter, pyRange_mem Nat.one_pos]
    constructor
    · rintro ⟨⟨h2p, hplim, -⟩, hpt⟩
      have hj : p ≤ limit := by omega
      have hnm : ¬ Marked (Nat.sqrt limit) p := by
        rw [← hinv p hj, hpt]
        simp
      refine ⟨?_, hj⟩
      by_contra hnp
      refine hnm (marked_of_not_prime h2p hnp (Nat.le_sqrt.mpr ?_))
      exact le_trans (minFac_le_of_composite h2p hnp) hj
    · rintro ⟨hpp, hplim⟩
      have h2p : 2 ≤ p := hpp.two_le
      refine ⟨⟨h2p, by omega, one_dvd _⟩, ?_⟩
      have hnm : ¬ Marked (Nat.sqrt limit) p := by
        rintro (hlt | ⟨q, hqp, hqk, hqsq, hqd⟩)
        · omega
        · rcases hpp.eq_one_or_self_of_dvd q hqd with h' | h'
          · exact hqp.ne_one h'
          · subst h'
            have h2q : 2 * q ≤ q * q := Nat.mul_le_mul_right q h2p
            omega
      cases hb : ((pyRange 2 (Nat.sqrt limit + 1) 1).foldl (sieveStep limit)
          (initialSieve limit)).getD p false
      · exact absurd ((hinv p (by omega)).mp hb) hnm
      · rfl

/-- Witness for C4 at `limit = 10`. -/
theorem C4_prime_sieve_correct_witness :
    2 ≤ 10 ∧
      (List.Sorted (· < ·) (prime_sieve 10) ∧
        (∀ p, p ∈ prime_sieve 10 ↔ Nat.Prime p ∧ p ≤ 10) ∧
        prime_sieve 10 = [2, 3, 5, 7]) :=
  ⟨by decide, C4_prime_sieve_correct 10 (by decide)⟩

theorem find?_map_set {V : Type} (d : List (String × V)) (k : String) (v : V)
    (h : d.any (fun p => p.1 = k) = true) :
    (d.map (fun p => if p.1 = k then (k, v) else p)).find? (fun p => p.1 = k) = some (k, v) := by
  induction d with
  | nil => simp at h
  | cons p rest ih =>
    rw [List.map_cons]
    by_cases hp : p.1 = k
    · rw [if_pos hp]
      exact List.find?_cons_of_pos _ (by simp)
    · rw [if_neg hp, List.find?_cons_of_neg _ (by simp [hp])]
      apply ih
      simpa [hp] using h

theorem find?_map_set_ne {V : Type} (d : List (String × V)) (k : String) (v : V)
    (k' : String) (hk : k' ≠ k) :
    (d.map (fun p => if p.1 = k then (k, v) else p)).find? (fun p => p.1 = k') =
      d.find? (fun p => p.1 = k') := by
  induction d with
  | nil => rfl
  | cons p rest ih =>
    rw [List.map_cons]
    by_cases hp : p.1 = k
    · rw [if_pos hp, List.find?_cons_of_neg _ (by simp [Ne.symm hk]),
        List.find?_cons_of_neg _ (by simp [hp, Ne.symm hk]), ih]
    · by_cases hp' : p.1 = k'
      · rw [if_neg hp, List.find?_cons_of_pos _ (by simp [hp']),
          List.find?_cons_of_pos _ (by simp [hp'])]
      · rw [if_neg hp, List.find?_cons_of_neg _ (by simp [hp']),
          List.find?_cons_of_neg _ (by simp [hp']), ih]

theorem dictGet?_dictSet_self {V : Type} (d : List (String × V)) (k : String) (v : V) :
    dictGet? (dictSet d k v) k = some v := by
  unfold dictSet dictGet?
  by_cases h : d.any (fun p => p.1 = k) = true
  · rw [if_pos h, find?_map_set d k v h]
    rfl
  · rw [if_neg h]
    have hnone : d.find? (fun p => p.1 = k) = none := by
      rw [List.find?_eq_none]
      intro x hx hc
      exact h (List.any_eq_true.mpr ⟨x, hx, hc⟩)
    rw [List.find?_append, hnone]
    simp

theorem dictGet?_dictSet_ne {V : Type} (d : List (String × V)) (k : String) (v : V)
    (k' : String) (h : k' ≠ k) :
    dictGet? (dictSet d k v) k' = dictGet? d k' := by
  unfold dictSet dictGet?
  by_cases hany : d.any (fun p => p.1 = k) = true
  · rw [if_pos hany, find?_map_set_ne d k v k' h]
  · rw [if_neg hany, List.find?_append]
    have h2 : ([(k, v)].find? (fun p => p.1 = k')) = none := by
      simp [Ne.symm h]
    rw [h2]
    cases d.find? (fun p => p.1 = k') <;> rfl

theorem dictKeys_dictSet_of_mem {V : Type} (d : List (String × V)) (k : String) (v : V)
    (h : k ∈ dictKeys d) : dictKeys (dictSet d k v) = dictKeys d := by
  unfold dictSet dictKeys
  rw [if_pos]
  · rw [List.map_map]
    apply List.map_congr_left
    intro p _
    by_cases hp : p.1 = k
    · simp [hp]
    · simp [hp]
  · obtain ⟨p, hp, hpk⟩ := List.mem_map.mp h
    exact List.any_eq_true.mpr ⟨p, hp, by simp [hpk]⟩

/-- C7: `IOProfiler.measure` returns exactly the value of
`func(*args, **kwargs)`; on success the `results` dict maps `name` to the
elapsed time and every other key is unchanged; when `func` raises, the
exception propagates and `results` is untouched. -/
theorem C7_IOProfiler_measure_correct {α : Type} (results : List (String × ℚ))
    (name : String) (func : Except String α) (elapsed : ℚ) :
    (∀ v, func = .ok v →
      IOProfiler.measure results name func elapsed = (.ok v, dictSet results name elapsed) ∧
        dictGet? (dictSet results name elapsed) name = some elapsed ∧
        ∀ k, k ≠ name → dictGet? (dictSet results name elapsed) k = dictGet? results k) ∧
      (∀ e, func = .error e →
        IOProfiler.measure results name func elapsed = (.error e, results)) := by
  constructor
  · rintro v rfl
    exact ⟨rfl, dictGet?_dictSet_self results name elapsed,
      fun k hk => dictGet?_dictSet_ne results name elapsed k hk⟩
  · rintro e rfl
    rfl

/-- Witness for C7 at a concrete call. -/
theorem C7_IOProfiler_measure_correct_witness :
    ((.ok 7 : Except String Nat) = .ok 7) ∧
      (IOProfiler.measure [("old", 1)] "seq" (.ok 7 : Except String Nat) 2 =
          (.ok 7, dictSet [("old", 1)] "seq" 2) ∧
        dictGet? (dictSet [("old", (1 : ℚ))] "seq" 2) "seq" = some 2 ∧
        ∀ k, k ≠ "seq" → dictGet? (dictSet [("old", (1 : ℚ))] "seq" 2) k =
          dictGet? [("old", (1 : ℚ))] k) :=
  ⟨rfl, (C7_IOProfiler_measure_correct [("old", 1)] "seq" (.ok 7) 2).1 7 rfl⟩

/-- C6: when the `nsys stats` subprocess fails (`subprocess.CalledProcessError`,
embedded as `Except.error`), `extract_stats` returns the default statistics:
name from the path, `duration` and `cpu_utilization` `None`, empty
`top_functions`, zero counters.  (The `print` of the error message is an I/O
side effect outside the embedding.) -/
theorem C6_extract_stats_error_default (stem : String) (e : Unit) :
    extract_stats stem (.error e) =
      { name := stem, duration := none, cpu_utilization := none,
        top_functions := [], context_switches := 0, samples := 0 } :=
  rfl

/-- C5 evidence: the `DummyNVTX.annotate` fall-back is the identity for
decorator use, but for either of its possible results a `with` statement
raises `TypeError` (plain functions implement neither `__enter__` nor
`__exit__`), so `DataPipeline.transform_batch`'s
`with nvtx.annotate("FFT", ...)` raises when `nvtx` is missing. -/
theorem C5_dummy_annotate_not_context_manager :
    (∀ (α : Type) (f : α), DummyNVTX.decorator f = f) ∧
      supportsWithStatement (DummyNVTX.annotate false) = false ∧
      supportsWithStatement (DummyNVTX.annotate true) = false :=
  ⟨fun _ _ => rfl, rfl, rfl⟩

theorem dictKeys_dictSet_std (d : List (String × StatVal)) (k : String) (v : StatVal)
    (hd : dictKeys d = dictKeys initStats) (hk : k ∈ dictKeys initStats) :
    dictKeys (dictSet d k v) = dictKeys initStats := by
  rw [dictKeys_dictSet_of_mem d k v (by rw [hd]; exact hk), hd]

theorem keys_setIfFound (key : String) (r : Option (List Char))
    (d : List (String × StatVal)) (hd : dictKeys d = dictKeys initStats)
    (hk : key ∈ dictKeys initStats) :
    dictKeys (setIfFound key r d) = dictKeys initStats := by
  cases r with
  | none => exact hd
  | some g => exact dictKeys_dictSet_std d key _ hd hk

theorem keys_setTopIf (cond : Bool) (v : List (List Char × ℚ))
    (d : List (String × StatVal)) (hd : dictKeys d = dictKeys initStats) :
    dictKeys (setTopIf cond v d) = dictKeys initStats := by
  cases cond with
  | false => exact hd
  | true => exact dictKeys_dictSet_std d "top_functions" _ hd (by decide)

theorem get_setIfFound_ne (key : String) (r : Option (List Char))
    (d : List (String × StatVal)) (k : String) (hk : k ≠ key) :
    dictGet? (setIfFound key r d) k = dictGet? d k := by
  cases r with
  | none => rfl
  | some g => exact dictGet?_dictSet_ne d key _ k hk

theorem get_setTopIf_ne (cond : Bool) (v : List (List Char × ℚ))
    (d : List (String × StatVal)) (k : String) (hk : k ≠ "top_functions") :
    dictGet? (setTopIf cond v d) k = dictGet? d k := by
  cases cond with
  | false => rfl
  | true => exact dictGet?_dictSet_ne d "top_functions" _ k hk

theorem statsRest_keys (d : List (String × StatVal)) (content : List Char)
    (hd : dictKeys d = dictKeys initStats) :
    dictKeys (statsRest d content) = dictKeys initStats := by
  unfold statsRest
  exact keys_setTopIf _ _ _
    (keys_setIfFound _ _ _ (keys_setIfFound _ _ _ hd (by decide)) (by decide))

theorem statsRest_get_untouched (d : List (String × StatVal)) (content : List Char)
    (k : String) (h1 : k ≠ "cpu_samples") (h2 : k ≠ "context_switches")
    (h3 : k ≠ "top_functions") :
    dictGet? (statsRest d content) k = dictGet? d k := by
  unfold statsRest
  rw [get_setTopIf_ne _ _ _ _ h3, get_setIfFound_ne _ _ _ _ h2, get_setIfFound_ne _ _ _ _ h1]

theorem statsRest_get_cpu_samples (d : List (String × StatVal)) (content : List Char)
    (h : searchCount ("Total samples:".toList) content = none) :
    dictGet? (statsRest d content) "cpu_samples" = dictGet? d "cpu_samples" := by
  unfold statsRest
  rw [get_setTopIf_ne _ _ _ _ (by decide), get_setIfFound_ne _ _ _ _ (by decide), h]
  rfl

theorem setIfFound_none (key : String) (d : List (String × StatVal)) :
    setIfFound key none d = d := rfl

theorem setTopIf_false (v : List (List Char × ℚ)) (d : List (String × StatVal)) :
    setTopIf false v d = d := rfl

theorem statsRest_get_context_switches (d : List (String × StatVal)) (content : List Char)
    (h : searchCount ("Context switches:".toList) content = none) :
    dictGet? (statsRest d content) "context_switches" = dictGet? d "context_switches" := by
  unfold statsRest
  rw [get_setTopIf_ne _ _ _ _ (by decide), h, setIfFound_none,
    get_setIfFound_ne _ _ _ _ (by decide)]

theorem statsRest_get_top_functions (d : List (String × StatVal)) (content : List Char)
    (h : containsSub ("Top Functions".toList) content = false) :
    dictGet? (statsRest d content) "top_functions" = dictGet? d "top_functions" := by
  unfold statsRest
  rw [h, setTopIf_false, get_setIfFound_ne _ _ _ _ (by decide),
    get_setIfFound_ne _ _ _ _ (by decide)]

/-- C1 counterexample: on a file whose text is `Duration: . seconds` the
Duration regex matches with group `"."`, and the unguarded `float('.')`
raises `ValueError`, so `parse_stats_file` raises instead of returning the
stats dict. -/
theorem C1_counterexample_parse_stats_file_raises :
    parse_stats_file (some ("Duration: . seconds".toList)) =
      .error "ValueError: could not convert string to float" := rfl

/-- C1 (amended): provided the captured Duration group, when present, is a
valid float literal, `parse_stats_file` returns (never raises) a dict with
exactly the keys `duration`, `cpu_samples`, `context_switches`,
`top_functions`, `os_runtime_events`, `nvtx_events`; a missing file yields
the initial dict, and each field whose pattern finds no match keeps its
initial null/default value. -/
theorem C1_parse_stats_file_keys_defaults (file : Option (List Char))
    (h : durationGroupSafe file = true) :
    ∃ d, parse_stats_file file = .ok d ∧
      dictKeys d = ["duration", "cpu_samples", "context_switches", "top_functions",
        "os_runtime_events", "nvtx_events"] ∧
      (file = none → d = initStats) ∧
      (∀ content, file = some content →
        ((searchDuration content = none → dictGet? d "duration" = some (.durationVal none)) ∧
          (searchCount ("Total samples:".toList) content = none →
            dictGet? d "cpu_samples" = some (.countVal 0)) ∧
          (searchCount ("Context switches:".toList) content = none →
            dictGet? d "context_switches" = some (.countVal 0)) ∧
          (containsSub ("Top Functions".toList) content = false →
            dictGet? d "top_functions" = some (.funcsVal [])) ∧
          dictGet? d "os_runtime_events" = some (.countVal 0) ∧
          dictGet? d "nvtx_events" = some (.countVal 0))) := by
  cases file with
  | none =>
    exact ⟨initStats, rfl, rfl, fun _ => rfl, fun c hc => Option.noConfusion hc⟩
  | some content =>
    have hmain : ∀ d0, dictKeys d0 = dictKeys initStats →
        parse_stats_file (some content) = .ok (statsRest d0 content) →
        dictGet? d0 "cpu_samples" = some (.countVal 0) →
        dictGet? d0 "context_switches" = some (.countVal 0) →
        dictGet? d0 "top_functions" = some (.funcsVal []) →
        dictGet? d0 "os_runtime_events" = some (.countVal 0) →
        dictGet? d0 "nvtx_events" = some (.countVal 0) →
        (searchDuration content = none → dictGet? d0 "duration" = some (.durationVal none)) →
        ∃ d, parse_stats_file (some content) = .ok d ∧
          dictKeys d = ["duration", "cpu_samples", "context_switches", "top_functions",
            "os_runtime_events", "nvtx_events"] ∧
          (some content = none → d = initStats) ∧
          (∀ c, some content = some c →
            ((searchDuration c = none → dictGet? d "duration" = some (.durationVal none)) ∧
              (searchCount ("Total samples:".toList) c = none →
                dictGet? d "cpu_samples" = some (.countVal 0)) ∧
              (searchCount ("Context switches:".toList) c = none →
                dictGet? d "context_switches" = some (.countVal 0)) ∧
              (containsSub ("Top Functions".toList) c = false →
                dictGet? d "top_functions" = some (.funcsVal [])) ∧
              dictGet? d "os_runtime_events" = some (.countVal 0) ∧
              dictGet? d "nvtx_events" = some (.countVal 0))) := by
      intro d0 hkeys hok hcpu hctx htop hos hnv hdur
      refine ⟨statsRest d0 content, hok, (statsRest_keys d0 content hkeys).trans rfl,
        fun hc => Option.noConfusion hc, fun c hc => ?_⟩
      have hce := Option.some.inj hc
      subst hce
      refine ⟨?_, ?_, ?_, ?_, ?_, ?_⟩
      · intro hn
        rw [statsRest_get_untouched d0 content "duration" (by decide) (by decide) (by decide)]
        exact hdur hn
      · intro hn
        rw [statsRest_get_cpu_samples d0 content hn]
        exact hcpu
      · intro hn
        rw [statsRest_get_context_switches d0 content hn]
        exact hctx
      · intro hn
        rw [statsRest_get_top_functions d0 content hn]
        exact htop
      · rw [statsRest_get_untouched d0 content "os_runtime_events"
          (by decide) (by decide) (by decide)]
        exact hos
      · rw [statsRest_get_untouched d0 content "nvtx_events"
          (by decide) (by decide) (by decide)]
        exact hnv
    cases hsd : searchDuration content with
    | none =>
      refine hmain initStats rfl ?_ rfl rfl rfl rfl rfl (fun _ => rfl)
      simp only [parse_stats_file, hsd]
    | some g =>
      have h' : (pyFloatOfDigitsDots g).isSome = true := by
        simp only [durationGroupSafe] at h
        rw [hsd] at h
        exact h
      obtain ⟨q, hq⟩ := Option.isSome_iff_exists.mp h'
      refine hmain (dictSet initStats "duration" (.durationVal (some q)))
        (dictKeys_dictSet_std _ _ _ rfl (by decide)) ?_ ?_ ?_ ?_ ?_ ?_ ?_
      · simp only [parse_stats_file, hsd, hq]
      · exact dictGet?_dictSet_ne _ _ _ _ (by decide)
      · exact dictGet?_dictSet_ne _ _ _ _ (by decide)
      · exact dictGet?_dictSet_ne _ _ _ _ (by decide)
      · exact dictGet?_dictSet_ne _ _ _ _ (by decide)
      · exact dictGet?_dictSet_ne _ _ _ _ (by decide)
      · intro hn
        rw [hn] at hsd
        exact nomatch hsd

/-- Witness for C1 (amended) at a concrete file. -/
theorem C1_parse_stats_file_keys_defaults_witness :
    durationGroupSafe (some ("Duration: 2.5 seconds".toList)) = true ∧
      (∃ d, parse_stats_file (some ("Duration: 2.5 seconds".toList)) = .ok d ∧
        dictKeys d = ["duration", "cpu_samples", "context_switches", "top_functions",
          "os_runtime_events", "nvtx_events"] ∧
        (some ("Duration: 2.5 seconds".toList) = none → d = initStats) ∧
        (∀ content, some ("Duration: 2.5 seconds".toList) = some content →
          ((searchDuration content = none →
              dictGet? d "duration" = some (.durationVal none)) ∧
            (searchCount ("Total samples:".toList) content = none →
              dictGet? d "cpu_samples" = some (.countVal 0)) ∧
            (searchCount ("Context switches:".toList) content = none →
              dictGet? d "context_switches" = some (.countVal 0)) ∧
            (containsSub ("Top Functions".toList) content = false →
              dictGet? d "top_functions" = some (.funcsVal [])) ∧
            dictGet? d "os_runtime_events" = some (.countVal 0) ∧
            dictGet? d "nvtx_events" = some (.countVal 0)))) :=
  ⟨by decide, C1_parse_stats_file_keys_defaults (some ("Duration: 2.5 seconds".toList))
    (by decide)⟩

theorem pyTruthyDuration_eq_true {q : Option ℚ} (h : pyTruthyDuration q = true) :
    ∃ x, q = some x ∧ x ≠ 0 := by
  cases q with
  | none => exact absurd h (by simp [pyTruthyDuration])
  | some x => exact ⟨x, rfl, by simpa [pyTruthyDuration] using h⟩

theorem comparePairs_keys (fs : String → Option (List Char))
    (L : List (String × String × String)) (comps : List (String × Comparison))
    (hok : comparePairs fs L = .ok comps) :
    ∀ e ∈ comps, e.1 ∈ L.map (fun t => t.2.2) := by
  induction L generalizing comps with
  | nil =>
    simp only [comparePairs] at hok
    injection hok with h
    subst h
    intro e he
    exact absurd he (List.not_mem_nil e)
  | cons hd rest ih =>
    obtain ⟨a, b, c⟩ := hd
    simp only [comparePairs] at hok
    cases hpa : parse_stats_file (fs (a ++ "_stats.txt")) with
    | error err =>
      simp only [hpa] at hok
      exact Except.noConfusion hok
    | ok s1 =>
      simp only [hpa] at hok
      cases hpb : parse_stats_file (fs (b ++ "_stats.txt")) with
      | error err =>
        simp only [hpb] at hok
        exact Except.noConfusion hok
      | ok s2 =>
        simp only [hpb] at hok
        cases hrest : comparePairs fs rest with
        | error err =>
          simp only [hrest] at hok
          exact Except.noConfusion hok
        | ok comps' =>
          simp only [hrest] at hok
          by_cases hcond : (pyTruthyDuration (getDuration s1) &&
              pyTruthyDuration (getDuration s2)) = true
          · rw [if_pos hcond] at hok
            injection hok with h
            subst h
            intro e he
            rcases List.mem_cons.mp he with rfl | he'
            · exact List.mem_cons_self _ _
            · exact List.mem_cons_of_mem _ (ih comps' hrest e he')
          · rw [if_neg hcond] at hok
            injection hok with h
            subst h
            intro e he
            exact List.mem_cons_of_mem _ (ih comps' hrest e he)

theorem comparePairs_spec (fs : String → Option (List Char))
    (L : List (String × String × String)) (py cpp disp : String)
    (hmem : (py, cpp, disp) ∈ L) (hnodup : (L.map (fun t => t.2.2)).Nodup)
    (comps : List (String × Comparison)) (hok : comparePairs fs L = .ok comps)
    (pyS cppS : List (String × StatVal))
    (hpy : parse_stats_file (fs (py ++ "_stats.txt")) = .ok pyS)
    (hcpp : parse_stats_file (fs (cpp ++ "_stats.txt")) = .ok cppS) :
    (comps.any (fun e => e.1 = disp) =
      (pyTruthyDuration (getDuration pyS) && pyTruthyDuration (getDuration cppS))) ∧
      (∀ e ∈ comps, e.1 = disp →
        ∃ pd cd, getDuration pyS = some pd ∧ getDuration cppS = some cd ∧ cd ≠ 0 ∧
          e.2 = ⟨pyS, cppS, pd / cd⟩) := by
  induction L generalizing comps with
  | nil => exact absurd hmem (List.not_mem_nil _)
  | cons hd rest ih =>
    obtain ⟨a, b, c⟩ := hd
    simp only [comparePairs] at hok
    cases hpa : parse_stats_file (fs (a ++ "_stats.txt")) with
    | error err =>
      simp only [hpa] at hok
      exact Except.noConfusion hok
    | ok s1 =>
      simp only [hpa] at hok
      cases hpb : parse_stats_file (fs (b ++ "_stats.txt")) with
      | error err =>
        simp only [hpb] at hok
        exact Except.noConfusion hok
      | ok s2 =>
        simp only [hpb] at hok
        cases hrest : comparePairs fs rest with
        | error err =>
          simp only [hrest] at hok
          exact Except.noConfusion hok
        | ok comps' =>
          simp only [hrest] at hok
          simp only [List.map_cons, List.nodup_cons] at hnodup
          obtain ⟨hcnotin, hnodup'⟩ := hnodup
          rcases List.mem_cons.mp hmem with heq | hmem'
          · obtain ⟨rfl, rfl, rfl⟩ : py = a ∧ cpp = b ∧ disp = c := by
              simpa [Prod.ext_iff] using heq
            rw [hpa] at hpy
            injection hpy with hs1
            subst hs1
            rw [hpb] at hcpp
            injection hcpp with hs2
            subst hs2
            by_cases hcond : (pyTruthyDuration (getDuration s1) &&
                pyTruthyDuration (getDuration s2)) = true
            · rw [if_pos hcond] at hok
              injection hok with h
              subst h
              constructor
              · rw [hcond]
                simp
              · intro e he hedisp
                rcases List.mem_cons.mp he with rfl | he'
                · rw [Bool.and_eq_true] at hcond
                  obtain ⟨pd, hpd, hpd0⟩ := pyTruthyDuration_eq_true hcond.1
                  obtain ⟨cd, hcd, hcd0⟩ := pyTruthyDuration_eq_true hcond.2
                  refine ⟨pd, cd, hpd, hcd, hcd0, ?_⟩
                  simp [hpd, hcd]
                · have := comparePairs_keys fs rest comps' hrest e he'
                  rw [hedisp] at this
                  exact absurd this hcnotin
            · rw [if_neg hcond] at hok
              injection hok with h
              subst h
              constructor
              · cases hany : comps'.any (fun e => e.1 = disp) with
                | false =>
                  cases hb : (pyTruthyDuration (getDuration s1) &&
                      pyTruthyDuration (getDuration s2)) with
                  | false => rfl
                  | true => exact absurd hb hcond
                | true =>
                  obtain ⟨e, he, hedisp⟩ := List.any_eq_true.mp hany
                  have := comparePairs_keys fs rest comps' hrest e he
                  rw [of_decide_eq_true hedisp] at this
                  exact absurd this hcnotin
              · intro e he hedisp
                have := comparePairs_keys fs rest comps' hrest e he
                rw [hedisp] at this
                exact absurd this hcnotin
          · have hdisp_in : disp ∈ rest.map (fun t => t.2.2) :=
              List.mem_map.mpr ⟨(py, cpp, disp), hmem', rfl⟩
            have hdc : disp ≠ c := fun h => hcnotin (h ▸ hdisp_in)
            have ihres := ih hmem' hnodup' comps' hrest
            by_cases hcond : (pyTruthyDuration (getDuration s1) &&
                pyTruthyDuration (getDuration s2)) = true
            · rw [if_pos hcond] at hok
              injection hok with h
              subst h
              constructor
              · simp only [List.any_cons]
                rw [show (decide (((c, (⟨s1, s2,
                    (getDuration s1).getD 0 / (getDuration s2).getD 0⟩ : Comparison))).1 = disp))
                    = false by simp [Ne.symm hdc], Bool.false_or]
                exact ihres.1
              · intro e he hedisp
                rcases List.mem_cons.mp he with rfl | he'
                · exact absurd hedisp (Ne.symm hdc)
                · exact ihres.2 e he' hedisp
            · rw [if_neg hcond] at hok
              injection hok with h
              subst h
              exact ihres

/-- C2: for a pair listed in `example_pairs`, a successful
`compare_implementations` run includes the pair exactly when both parsed
durations are truthy (non-null and nonzero), and then the entry's `speedup`
is the Python duration divided by the C++ duration — in particular the
division only happens with a non-null, nonzero C++ duration. -/
theorem C2_compare_implementations_speedup (fs : String → Option (List Char))
    (py cpp disp : String) (hmem : (py, cpp, disp) ∈ example_pairs)
    (comps : List (String × Comparison))
    (hok : compare_implementations fs = .ok comps)
    (pyS cppS : List (String × StatVal))
    (hpy : parse_stats_file (fs (py ++ "_stats.txt")) = .ok pyS)
    (hcpp : parse_stats_file (fs (cpp ++ "_stats.txt")) = .ok cppS) :
    (comps.any (fun e => e.1 = disp) =
      (pyTruthyDuration (getDuration pyS) && pyTruthyDuration (getDuration cppS))) ∧
      (∀ e ∈ comps, e.1 = disp →
        ∃ pd cd, getDuration pyS = some pd ∧ getDuration cppS = some cd ∧ cd ≠ 0 ∧
          e.2 = ⟨pyS, cppS, pd / cd⟩) :=
  comparePairs_spec fs example_pairs py cpp disp hmem (by decide) comps hok pyS cppS hpy hcpp

/-- Witness for C2 on the empty filesystem: every parse yields the default
stats, both durations are `None`, and no pair is included. -/
theorem C2_compare_implementations_speedup_witness :
    (("py_1_basic_cpu", "cpp_1_basic_cpu", "Basic CPU Profiling") ∈ example_pairs) ∧
      compare_implementations (fun _ => none) = .ok [] ∧
      ((([] : List (String × Comparison)).any (fun e => e.1 = "Basic CPU Profiling") =
        (pyTruthyDuration (getDuration initStats) && pyTruthyDuration (getDuration initStats))) ∧
        (∀ e ∈ ([] : List (String × Comparison)), e.1 = "Basic CPU Profiling" →
          ∃ pd cd, getDuration initStats = some pd ∧ getDuration initStats = some cd ∧ cd ≠ 0 ∧
            e.2 = ⟨initStats, initStats, pd / cd⟩)) :=
  ⟨by decide, rfl,
    C2_compare_implementations_speedup (fun _ => none) "py_1_basic_cpu" "cpp_1_basic_cpu"
      "Basic CPU Profiling" (by decide) [] rfl initStats initStats rfl rfl⟩

end NsysPoc
